import Mathlib

/-!
A shallow embedding of the Internet Identity Solana wallet adapter
(`IIWalletAdapter`) and of the signing methods the module installs on the
web3.js `Transaction` and `VersionedTransaction` prototypes.

External library types (`PublicKey`, the compiled `Message`, the key identity)
are modelled by their observable content as the adapter code reads it; the
adapter and prototype methods themselves are translated statement by statement.
In-place mutation of a transaction is rendered as explicit state passing: every
signing operation returns the transaction state after the call together with
the optionally thrown error, mutations made before a throw being kept.  The
identity callbacks of `_partialSignWithIdentity` run in list order and are
rendered twice: `processIdentities` is the sequential error-propagating pass
the spec describes (a thrown error halts it and surfaces), while
`processIdentitiesForEach` renders the source's actual
`identities.forEach(async ...)` semantics, in which each callback's promise is
discarded, so a thrown error is an unhandled rejection that halts nothing and
reaches no caller.
-/

/-- A Solana public key (web3.js `PublicKey`, external): a fixed-size byte
identifier, modelled by its raw byte content as a natural number. -/
structure PublicKey where
  raw : Nat
deriving DecidableEq, Repr

/-- web3.js `PublicKey.equals` (external): byte-wise comparison. -/
def PublicKey.equals (a b : PublicKey) : Bool :=
  a.raw == b.raw

/-- web3.js `PublicKey.toBase58` (external): the display string of the key.
Base58 rendering of the key bytes is injective, so it is modelled by an
injective encoding of the raw content. -/
def PublicKey.toBase58 (pk : PublicKey) : String :=
  String.mk (List.replicate pk.raw 'k')

/-- web3.js `PublicKey.toString` (external) delegates to `toBase58`. -/
def PublicKey.toString (pk : PublicKey) : String :=
  pk.toBase58

/-- `Ed25519KeyIdentity` (from `@dfinity/identity`, external): an opaque key
capability.  The code reads it through `getPublicKey().toRaw()` (the raw
public-key bytes) and `sign(bytes)` (a detached signature over the bytes);
both are modelled as fields. -/
structure Ed25519KeyIdentity where
  pubkeyRaw : Nat
  sign : List Nat → List Nat

/-- `new PublicKey((identity.getPublicKey() as Ed25519PublicKey).toRaw())`:
the signer public key derived from an identity. -/
def identityPubkey (identity : Ed25519KeyIdentity) : PublicKey :=
  { raw := identity.pubkeyRaw }

/-- The errors thrown by the adapter and the installed signing methods, named
after the spec's error taxonomy; `SignError.message` gives each thrown
`Error`'s message string from the source. -/
inductive SignError where
  | notConnected
  | noSigners
  | unknownSigner (pk : PublicKey)
  | nonSignerKey (pk : PublicKey)
  | invalidSignatureLength
deriving DecidableEq, Repr

/-- The message string of each thrown `Error` in the source. -/
def SignError.message : SignError → String
  | .notConnected => "WalletNotConnectedError"
  | .noSigners => "No signers"
  | .unknownSigner pk => "unknown signer: " ++ pk.toString
  | .nonSignerKey pk => "Cannot sign with non signer key " ++ pk.toBase58
  | .invalidSignatureLength => "Assertion failed."

/-- The spec's `UnknownSigner` error kind: the derived public key is absent
from the message's required signers.  It is thrown as
"unknown signer: ..." on the legacy path and as
"Cannot sign with non signer key ..." on the versioned path. -/
def SignError.isUnknownSigner : SignError → Bool
  | .unknownSigner _ => true
  | .nonSignerKey _ => true
  | _ => false

/-- A legacy message header (web3.js, external): the signing code reads only
`numRequiredSignatures`. -/
structure MessageHeader where
  numRequiredSignatures : Nat
deriving DecidableEq, Repr

/-- A compiled legacy `Message` (web3.js, external): its account keys, its
header, and the wire bytes `serialize()` returns, treated as a black box. -/
structure Message where
  header : MessageHeader
  accountKeys : List PublicKey
  serializedData : List Nat
deriving DecidableEq, Repr

/-- `message.serialize()` (external): the message's wire bytes. -/
def Message.serialize (m : Message) : List Nat :=
  m.serializedData

/-- A legacy signature slot: web3.js `SignaturePubkeyPair`, the declared
public key with its optional 64-byte signature. -/
structure SignaturePubkeyPair where
  signature : Option (List Nat)
  publicKey : PublicKey
deriving DecidableEq, Repr

/-- A legacy `Transaction`: its signature slots, plus the message that
`this.compileMessage()` produces (web3.js, external: determined by the
transaction's accounts, instructions and fee payer, none of which the signing
code modifies, so it is modelled as a field). -/
structure Transaction where
  signatures : List SignaturePubkeyPair
  compiledMessage : Message
deriving DecidableEq, Repr

/-- A versioned message (web3.js, external): its header, its static account
keys and its `serialize()` wire bytes. -/
structure VersionedMessage where
  header : MessageHeader
  staticAccountKeys : List PublicKey
  serializedData : List Nat
deriving DecidableEq, Repr

/-- `this.message.serialize()` (external) for a versioned message. -/
def VersionedMessage.serialize (m : VersionedMessage) : List Nat :=
  m.serializedData

/-- A `VersionedTransaction`: a compiled message plus a flat signature array
indexed by position among the static account keys. -/
structure VersionedTransaction where
  message : VersionedMessage
  signatures : List (List Nat)
deriving DecidableEq, Repr

/-- `this.signatures.findIndex((sigpair) => pubkey.equals(sigpair.publicKey))`
in `_addSignature`, with `none` standing for `-1`. -/
def findSlotIdx (pubkey : PublicKey) : List SignaturePubkeyPair → Option Nat
  | [] => none
  | sigpair :: rest =>
    if pubkey.equals sigpair.publicKey then some 0
    else (findSlotIdx pubkey rest).map (· + 1)

/-- `this.signatures[index].signature = Buffer.from(signature)`: write the
signature into the slot at `index`, leaving every other slot and the slot's
declared public key unchanged. -/
def setSlotSignature : List SignaturePubkeyPair → Nat → List Nat → List SignaturePubkeyPair
  | [], _, _ => []
  | sigpair :: rest, 0, signature => { sigpair with signature := some signature } :: rest
  | sigpair :: rest, index + 1, signature => sigpair :: setSlotSignature rest index signature

/-- `Transaction.prototype._addSignature`: reject a signature that is not
exactly 64 bytes, then locate the slot declared for `pubkey` and write the
signature there, throwing `unknown signer` when no slot matches. -/
def Transaction._addSignature (tx : Transaction) (pubkey : PublicKey)
    (signature : List Nat) : Except SignError Transaction :=
  if signature.length ≠ 64 then
    .error SignError.invalidSignatureLength
  else
    match findSlotIdx pubkey tx.signatures with
    | none => .error (SignError.unknownSigner pubkey)
    | some index => .ok { tx with signatures := setSlotSignature tx.signatures index signature }

/-- The identity loop of `Transaction.prototype._partialSignWithIdentity`,
rendered as the sequential error-propagating pass the spec describes: each
identity signs the serialized message and the signature is written with
`_addSignature`; a thrown error ends the pass keeping the in-place mutations
already made (no rollback).  The source's actual loop is
`identities.forEach(async ...)`, which discards the callbacks' promises;
`processIdentitiesForEach` below renders that semantics. -/
def processIdentities (signData : List Nat) :
    Transaction → List Ed25519KeyIdentity → Transaction × Option SignError
  | tx, [] => (tx, none)
  | tx, identity :: rest =>
    match tx._addSignature (identityPubkey identity) (identity.sign signData) with
    | .error e => (tx, some e)
    | .ok tx2 => processIdentities signData tx2 rest

/-- `Transaction.prototype._partialSignWithIdentity` under the sequential
error-propagating rendering of its identity loop.  The source function's own
promise always resolves: its `forEach` swallows the async callbacks'
rejections (see `processIdentitiesForEach`). -/
def Transaction._partialSignWithIdentity (tx : Transaction) (message : Message)
    (identities : List Ed25519KeyIdentity) : Transaction × Option SignError :=
  processIdentities message.serialize tx identities

/-- `message.accountKeys.slice(0, message.header.numRequiredSignatures)`: the
required-signer keys of a compiled message, in message order. -/
def signedKeysOf (message : Message) : List PublicKey :=
  message.accountKeys.take message.header.numRequiredSignatures

/-- `Transaction.prototype._compile`: compile the message; when the existing
slots match the required-signer keys one for one (`every` with index, rendered
by `zip`) keep them, else reset the slot list to the required-signer keys with
cleared signatures.  Returns the message and the transaction state after. -/
def Transaction._compile (tx : Transaction) : Message × Transaction :=
  let message := tx.compiledMessage
  let signedKeys := signedKeysOf message
  if tx.signatures.length = signedKeys.length ∧
      (signedKeys.zip tx.signatures).all (fun p => p.1.equals p.2.publicKey) then
    (message, tx)
  else
    (message, { tx with
      signatures := signedKeys.map (fun publicKey => { signature := none, publicKey := publicKey }) })

/-- The dedupe loop of `partial_sign_with_identity`: an identity whose derived
public-key string is already in `seen` is skipped; a first occurrence is kept
and its key string recorded. -/
def dedupeLoop (seen : List String) : List Ed25519KeyIdentity → List Ed25519KeyIdentity
  | [] => []
  | identity :: rest =>
    let key := (identityPubkey identity).toString
    if seen.contains key then dedupeLoop seen rest
    else identity :: dedupeLoop (key :: seen) rest

/-- The `uniqueSigners` list built by `partial_sign_with_identity`. -/
def dedupeIdentities (identities : List Ed25519KeyIdentity) : List Ed25519KeyIdentity :=
  dedupeLoop [] identities

/-- `Transaction.prototype.partial_sign_with_identity`: throw `No signers` on
an empty identity list, else dedupe the signers, compile, and run
`_partialSignWithIdentity` on the compiled message.  The returned error is
the error thrown during the pass; in the source only `No signers` can reject
the operation's awaited promise — the call does not await
`_partialSignWithIdentity`, whose per-identity errors are already unhandled
rejections (see `partial_sign_forEach`). -/
def Transaction.partial_sign_with_identity (tx : Transaction)
    (identities : List Ed25519KeyIdentity) : Transaction × Option SignError :=
  if identities.length = 0 then
    (tx, some SignError.noSigners)
  else
    let uniqueSigners := dedupeIdentities identities
    let compiled := tx._compile
    compiled.2._partialSignWithIdentity compiled.1 uniqueSigners

/-- The identity callbacks of `_partialSignWithIdentity` under the source's
actual asynchronous semantics: `identities.forEach(async (identity) => ...)`
discards each callback's promise, so a thrown error becomes an unhandled
rejection — it stops none of the other callbacks and reaches no caller.
With each external `identity.sign` promise resolving, the callbacks'
continuations run in list order, each seeing the earlier mutations.  First
component: the transaction state after all callbacks ran; second: the errors
thrown into the discarded promises, in order — observable by no caller. -/
def processIdentitiesForEach (signData : List Nat) :
    Transaction → List Ed25519KeyIdentity → Transaction × List SignError
  | tx, [] => (tx, [])
  | tx, identity :: rest =>
    match tx._addSignature (identityPubkey identity) (identity.sign signData) with
    | .error e =>
      let r := processIdentitiesForEach signData tx rest
      (r.1, e :: r.2)
    | .ok tx2 => processIdentitiesForEach signData tx2 rest

/-- `Transaction.prototype.partial_sign_with_identity` under the source's
actual asynchronous semantics.  Only the synchronous `No signers` throw can
reject the operation's promise: the call does not await
`_partialSignWithIdentity`, whose `forEach` already discards the
per-identity callbacks' promises.  First component: the transaction state and
the discarded (unhandled) rejections; second: the error the caller's awaited
promise rejects with. -/
def partial_sign_forEach (tx : Transaction)
    (identities : List Ed25519KeyIdentity) :
    (Transaction × List SignError) × Option SignError :=
  if identities.length = 0 then
    ((tx, []), some SignError.noSigners)
  else
    let uniqueSigners := dedupeIdentities identities
    let compiled := tx._compile
    (processIdentitiesForEach compiled.1.serialize compiled.2 uniqueSigners, none)

/-- `signerPubkeys.findIndex((pubkey) => pubkey.equals(identity_pubkey))` in
`sign_with_identity`, with `none` standing for `-1`. -/
def findSignerIdx (identity_pubkey : PublicKey) : List PublicKey → Option Nat
  | [] => none
  | pubkey :: rest =>
    if pubkey.equals identity_pubkey then some 0
    else (findSignerIdx identity_pubkey rest).map (· + 1)

/-- The `for (const identity of identities)` loop of
`VersionedTransaction.prototype.sign_with_identity`: locate each identity's
position among the signer keys, throwing on a non-signer key, and write its
signature into the signature array at that index. -/
def versionedSignLoop (signerPubkeys : List PublicKey) (messageData : List Nat) :
    VersionedTransaction → List Ed25519KeyIdentity → VersionedTransaction × Option SignError
  | tx, [] => (tx, none)
  | tx, identity :: rest =>
    let identity_pubkey := identityPubkey identity
    match findSignerIdx identity_pubkey signerPubkeys with
    | none => (tx, some (SignError.nonSignerKey identity_pubkey))
    | some signerIndex =>
      versionedSignLoop signerPubkeys messageData
        { tx with signatures := tx.signatures.set signerIndex (identity.sign messageData) } rest

/-- `VersionedTransaction.prototype.sign_with_identity`. -/
def VersionedTransaction.sign_with_identity (tx : VersionedTransaction)
    (identities : List Ed25519KeyIdentity) : VersionedTransaction × Option SignError :=
  let messageData := tx.message.serialize
  let signerPubkeys := tx.message.staticAccountKeys.take tx.message.header.numRequiredSignatures
  versionedSignLoop signerPubkeys messageData tx identities

/-- A sign request, polymorphic over the two transaction formats
(`signTransaction<T extends Transaction | VersionedTransaction>`). -/
inductive Tx where
  | legacy (t : Transaction)
  | versioned (t : VersionedTransaction)
deriving DecidableEq, Repr

/-- The adapter's state: the privately held `#identity`, a nullable field. -/
structure IIWalletAdapter where
  identity : Option Ed25519KeyIdentity

/-- The events the adapter emits. -/
inductive AdapterEvent where
  | connected (pk : PublicKey)
  | disconnected

/-- `new IIWalletAdapter(identity)`: the public constructor requires an
identity argument and stores it in `#identity`. -/
def IIWalletAdapter.construct (identity : Ed25519KeyIdentity) : IIWalletAdapter :=
  { identity := some identity }

/-- `get publicKey()`: `this.#identity && new PublicKey(...)`, null when no
identity is held. -/
def IIWalletAdapter.publicKey (a : IIWalletAdapter) : Option PublicKey :=
  a.identity.map identityPubkey

/-- `connect()`: throws `WalletNotConnectedError` when no identity is held,
else emits `connect` with the derived public key.  Returns the adapter state
after the call (the method assigns nothing to `#identity`). -/
def IIWalletAdapter.connect (a : IIWalletAdapter) :
    Except SignError (IIWalletAdapter × List AdapterEvent) :=
  match a.identity with
  | none => .error SignError.notConnected
  | some identity => .ok (a, [AdapterEvent.connected (identityPubkey identity)])

/-- `disconnect()`: emits `disconnect`.  The assignment clearing `#identity`
is commented out in the source, so the held identity is unchanged. -/
def IIWalletAdapter.disconnect (a : IIWalletAdapter) :
    Except SignError (IIWalletAdapter × List AdapterEvent) :=
  .ok (a, [AdapterEvent.disconnected])

/-- `signTransaction`: throws `WalletNotConnectedError` when no identity is
held, else dispatches on the transaction format and returns the same
(in-place mutated) transaction object.  The optional error models the thrown
exception, mutations made before the throw being kept. -/
def IIWalletAdapter.signTransaction (a : IIWalletAdapter) (transaction : Tx) :
    IIWalletAdapter × Tx × Option SignError :=
  match a.identity with
  | none => (a, transaction, some SignError.notConnected)
  | some identity =>
    match transaction with
    | Tx.versioned t =>
      let r := t.sign_with_identity [identity]
      (a, Tx.versioned r.1, r.2)
    | Tx.legacy t =>
      let r := t.partial_sign_with_identity [identity]
      (a, Tx.legacy r.1, r.2)

/-- The slot located for a public key: the first slot whose declared public
key equals it (the slot `_addSignature`'s `findIndex` selects). -/
def slotOf (tx : Transaction) (pubkey : PublicKey) : Option SignaturePubkeyPair :=
  tx.signatures.find? (fun sigpair => pubkey.equals sigpair.publicKey)

/-- All signatures present in a slot list are exactly 64 bytes long: the
invariant the defensive length check of `_addSignature` maintains. -/
def Sig64Inv (tx : Transaction) : Prop :=
  ∀ pair ∈ tx.signatures, ∀ s, pair.signature = some s → s.length = 64

/-- Example fixture: a required-signer public key. -/
def exPkA : PublicKey :=
  { raw := 0 }

/-- Example fixture: a second required-signer public key. -/
def exPkB : PublicKey :=
  { raw := 1 }

/-- Example fixture: the identity deriving `exPkA`. -/
def exIdA : Ed25519KeyIdentity :=
  { pubkeyRaw := 0, sign := fun _ => List.replicate 64 7 }

/-- Example fixture: the identity deriving `exPkB`. -/
def exIdB : Ed25519KeyIdentity :=
  { pubkeyRaw := 1, sign := fun _ => List.replicate 64 8 }

/-- Example fixture: an identity whose key is not a required signer. -/
def exIdC : Ed25519KeyIdentity :=
  { pubkeyRaw := 2, sign := fun _ => List.replicate 64 9 }

/-- Example fixture: a compiled legacy message requiring signers
`[exPkA, exPkB]`. -/
def exMsg : Message :=
  { header := { numRequiredSignatures := 2 },
    accountKeys := [exPkA, exPkB, { raw := 3 }],
    serializedData := [1, 2, 3] }

/-- Example fixture: a legacy transaction with both signer slots declared and
no signature written. -/
def exTx : Transaction :=
  { signatures := [{ signature := none, publicKey := exPkA },
                   { signature := none, publicKey := exPkB }],
    compiledMessage := exMsg }

/-- Example fixture: the same legacy transaction before any slot was
allocated. -/
def exTx0 : Transaction :=
  { signatures := [], compiledMessage := exMsg }

/-- Example fixture: a versioned transaction requiring signers
`[exPkA, exPkB]`. -/
def exVTx : VersionedTransaction :=
  { message :=
      { header := { numRequiredSignatures := 2 },
        staticAccountKeys := [exPkA, exPkB, { raw := 3 }],
        serializedData := [4, 5, 6] },
    signatures := [List.replicate 64 0, List.replicate 64 0] }

/-- Example fixture: an adapter state holding no identity. -/
def exAdapterNone : IIWalletAdapter :=
  { identity := none }

/-- Example fixture: an adapter constructed with `exIdA`. -/
def exAdapterA : IIWalletAdapter :=
  IIWalletAdapter.construct exIdA

theorem PublicKey.equals_iff (a b : PublicKey) : a.equals b = true ↔ a = b := by
  cases a
  cases b
  simp [PublicKey.equals]

theorem PublicKey.toString_inj {a b : PublicKey} (h : a.toString = b.toString) : a = b := by
  have h2 : a.raw = b.raw := by
    have h3 := congrArg (fun s => s.data.length) h
    simpa [PublicKey.toString, PublicKey.toBase58] using h3
  cases a
  cases b
  simpa using h2

theorem findSlotIdx_eq_none_iff (pubkey : PublicKey) (l : List SignaturePubkeyPair) :
    findSlotIdx pubkey l = none ↔ pubkey ∉ l.map SignaturePubkeyPair.publicKey := by
  induction l with
  | nil => simp [findSlotIdx]
  | cons sigpair rest ih =>
    by_cases h : pubkey.equals sigpair.publicKey = true
    · rw [findSlotIdx, if_pos h]
      simp [(PublicKey.equals_iff _ _).mp h]
    · have hne : pubkey ≠ sigpair.publicKey := fun he =>
        h ((PublicKey.equals_iff _ _).mpr he)
      rw [findSlotIdx, if_neg h]
      simp [ih, hne]

theorem findSlotIdx_isSome_iff (pubkey : PublicKey) (l : List SignaturePubkeyPair) :
    (findSlotIdx pubkey l).isSome = true ↔ pubkey ∈ l.map SignaturePubkeyPair.publicKey := by
  rw [Option.isSome_iff_ne_none, Ne, findSlotIdx_eq_none_iff]
  simp

theorem findSignerIdx_eq_none_iff (identity_pubkey : PublicKey) (l : List PublicKey) :
    findSignerIdx identity_pubkey l = none ↔ identity_pubkey ∉ l := by
  induction l with
  | nil => simp [findSignerIdx]
  | cons pubkey rest ih =>
    by_cases h : pubkey.equals identity_pubkey = true
    · rw [findSignerIdx, if_pos h]
      simp [((PublicKey.equals_iff _ _).mp h).symm]
    · have hne : identity_pubkey ≠ pubkey := fun he =>
        h ((PublicKey.equals_iff _ _).mpr he.symm)
      rw [findSignerIdx, if_neg h]
      simp [ih, hne]

theorem map_publicKey_setSlot (s : List Nat) :
    ∀ (l : List SignaturePubkeyPair) (i : Nat),
    (setSlotSignature l i s).map SignaturePubkeyPair.publicKey
      = l.map SignaturePubkeyPair.publicKey := by
  intro l
  induction l with
  | nil => intro i; rfl
  | cons sigpair rest ih =>
    intro i
    cases i with
    | zero => simp [setSlotSignature]
    | succ j => simp [setSlotSignature, ih j]

theorem length_setSlot (s : List Nat) :
    ∀ (l : List SignaturePubkeyPair) (i : Nat),
    (setSlotSignature l i s).length = l.length := by
  intro l
  induction l with
  | nil => intro i; rfl
  | cons sigpair rest ih =>
    intro i
    cases i with
    | zero => simp [setSlotSignature]
    | succ j => simp [setSlotSignature, ih j]

theorem mem_setSlot (s : List Nat) :
    ∀ (l : List SignaturePubkeyPair) (i : Nat) (q : SignaturePubkeyPair),
    q ∈ setSlotSignature l i s → q ∈ l ∨ q.signature = some s := by
  intro l
  induction l with
  | nil => intro i q h; simp [setSlotSignature] at h
  | cons sigpair rest ih =>
    intro i q h
    cases i with
    | zero =>
      simp [setSlotSignature] at h
      rcases h with h | h
      · right; rw [h]
      · left; exact List.mem_cons_of_mem _ h
    | succ j =>
      simp [setSlotSignature] at h
      rcases h with h | h
      · left; rw [h]; exact List.mem_cons_self _ _
      · rcases ih j q h with h2 | h2
        · left; exact List.mem_cons_of_mem _ h2
        · right; exact h2

theorem find?_setSlot_self (pubkey : PublicKey) (s : List Nat) :
    ∀ (l : List SignaturePubkeyPair) (i : Nat), findSlotIdx pubkey l = some i →
    ∃ q : SignaturePubkeyPair,
      (setSlotSignature l i s).find? (fun sigpair => pubkey.equals sigpair.publicKey) = some q
      ∧ q.signature = some s ∧ q.publicKey = pubkey := by
  intro l
  induction l with
  | nil => intro i h; simp [findSlotIdx] at h
  | cons sigpair rest ih =>
    intro i h
    by_cases hh : pubkey.equals sigpair.publicKey = true
    · have hi : i = 0 := by simp [findSlotIdx, hh] at h; omega
      subst hi
      refine ⟨{ sigpair with signature := some s }, ?_, rfl, ?_⟩
      · simp [setSlotSignature, List.find?, hh]
      · exact ((PublicKey.equals_iff _ _).mp hh).symm
    · rw [findSlotIdx] at h
      rw [if_neg hh] at h
      rcases Option.map_eq_some'.mp h with ⟨j, hj, hij⟩
      subst hij
      rcases ih j hj with ⟨q, hq, hsig, hpk⟩
      refine ⟨q, ?_, hsig, hpk⟩
      simpa [setSlotSignature, List.find?, hh] using hq

theorem find?_setSlot_other (pubkey other : PublicKey) (s : List Nat)
    (hne : other ≠ pubkey) :
    ∀ (l : List SignaturePubkeyPair) (i : Nat), findSlotIdx pubkey l = some i →
    (setSlotSignature l i s).find? (fun sigpair => other.equals sigpair.publicKey)
      = l.find? (fun sigpair => other.equals sigpair.publicKey) := by
  intro l
  induction l with
  | nil => intro i h; simp [findSlotIdx] at h
  | cons sigpair rest ih =>
    intro i h
    by_cases hh : pubkey.equals sigpair.publicKey = true
    · have hi : i = 0 := by simp [findSlotIdx, hh] at h; omega
      subst hi
      have hother : other.equals sigpair.publicKey = false := by
        have hpk : sigpair.publicKey = pubkey := ((PublicKey.equals_iff _ _).mp hh).symm
        rcases Bool.eq_false_or_eq_true (other.equals sigpair.publicKey) with h2 | h2
        · exact absurd ((PublicKey.equals_iff _ _).mp h2) (hpk ▸ hne)
        · exact h2
      simp [setSlotSignature, List.find?, hother]
    · rw [findSlotIdx] at h
      rw [if_neg hh] at h
      rcases Option.map_eq_some'.mp h with ⟨j, hj, hij⟩
      subst hij
      by_cases ho : other.equals sigpair.publicKey = true
      · simp [setSlotSignature, List.find?, ho]
      · simp [setSlotSignature, List.find?, ho, ih j hj]

theorem addSignature_err_length {tx : Transaction} {pubkey : PublicKey}
    {signature : List Nat} (h : signature.length ≠ 64) :
    tx._addSignature pubkey signature = .error SignError.invalidSignatureLength := by
  simp [Transaction._addSignature, h]

theorem addSignature_err_unknown {tx : Transaction} {pubkey : PublicKey}
    {signature : List Nat} (h64 : signature.length = 64)
    (h : pubkey ∉ tx.signatures.map SignaturePubkeyPair.publicKey) :
    tx._addSignature pubkey signature = .error (SignError.unknownSigner pubkey) := by
  simp [Transaction._addSignature, h64, (findSlotIdx_eq_none_iff _ _).mpr h]

theorem addSignature_ok_of_mem {tx : Transaction} {pubkey : PublicKey}
    {signature : List Nat} (h64 : signature.length = 64)
    (hmem : pubkey ∈ tx.signatures.map SignaturePubkeyPair.publicKey) :
    ∃ tx', tx._addSignature pubkey signature = .ok tx' := by
  have hsome := (findSlotIdx_isSome_iff pubkey tx.signatures).mpr hmem
  rcases Option.isSome_iff_exists.mp hsome with ⟨i, hi⟩
  refine ⟨{ tx with signatures := setSlotSignature tx.signatures i signature }, ?_⟩
  simp [Transaction._addSignature, h64, hi]

theorem addSignature_ok_cases {tx tx' : Transaction} {pubkey : PublicKey}
    {signature : List Nat} (h : tx._addSignature pubkey signature = .ok tx') :
    signature.length = 64
    ∧ tx'.compiledMessage = tx.compiledMessage
    ∧ tx'.signatures.map SignaturePubkeyPair.publicKey
        = tx.signatures.map SignaturePubkeyPair.publicKey := by
  by_cases hl : signature.length ≠ 64
  · rw [addSignature_err_length hl] at h
    exact absurd h (by simp)
  · push_neg at hl
    cases hfind : findSlotIdx pubkey tx.signatures with
    | none => simp [Transaction._addSignature, hl, hfind] at h
    | some i =>
      simp [Transaction._addSignature, hl, hfind] at h
      subst h
      exact ⟨hl, rfl, map_publicKey_setSlot _ _ _⟩

theorem slotOf_addSignature_self {tx tx' : Transaction} {pubkey : PublicKey}
    {signature : List Nat} (h : tx._addSignature pubkey signature = .ok tx') :
    ∃ q, slotOf tx' pubkey = some q
      ∧ q.signature = some signature ∧ q.publicKey = pubkey := by
  have h64 := (addSignature_ok_cases h).1
  cases hfind : findSlotIdx pubkey tx.signatures with
  | none =>
    rw [addSignature_err_unknown h64 ((findSlotIdx_eq_none_iff _ _).mp hfind)] at h
    exact absurd h (by simp)
  | some i =>
    simp [Transaction._addSignature, h64, hfind] at h
    subst h
    exact find?_setSlot_self pubkey signature tx.signatures i hfind

theorem slotOf_addSignature_other {tx tx' : Transaction} {pubkey other : PublicKey}
    {signature : List Nat} (h : tx._addSignature pubkey signature = .ok tx')
    (hne : other ≠ pubkey) :
    slotOf tx' other = slotOf tx other := by
  have h64 := (addSignature_ok_cases h).1
  cases hfind : findSlotIdx pubkey tx.signatures with
  | none =>
    rw [addSignature_err_unknown h64 ((findSlotIdx_eq_none_iff _ _).mp hfind)] at h
    exact absurd h (by simp)
  | some i =>
    simp [Transaction._addSignature, h64, hfind] at h
    subst h
    exact find?_setSlot_other pubkey other signature hne tx.signatures i hfind

theorem zipAll_equals_iff :
    ∀ (ks : List PublicKey) (l : List SignaturePubkeyPair),
    (l.length = ks.length
      ∧ (ks.zip l).all (fun p => p.1.equals p.2.publicKey) = true)
    ↔ l.map SignaturePubkeyPair.publicKey = ks := by
  intro ks
  induction ks with
  | nil => intro l; cases l <;> simp
  | cons k ks ih =>
    intro l
    cases l with
    | nil => simp
    | cons pair rest =>
      rw [List.zip_cons_cons, List.all_cons]
      constructor
      · rintro ⟨hlen, hall⟩
        rw [Bool.and_eq_true] at hall
        rcases hall with ⟨h1, h2⟩
        simp only [List.map_cons, List.cons.injEq]
        exact ⟨((PublicKey.equals_iff _ _).mp h1).symm,
          (ih rest).mp ⟨by simpa using hlen, h2⟩⟩
      · intro h
        simp only [List.map_cons, List.cons.injEq] at h
        rcases h with ⟨h1, h2⟩
        rcases (ih rest).mpr h2 with ⟨hlen, hall⟩
        refine ⟨by simpa using hlen, ?_⟩
        rw [Bool.and_eq_true]
        exact ⟨(PublicKey.equals_iff _ _).mpr h1.symm, hall⟩

theorem compile_reuse {tx : Transaction}
    (h : tx.signatures.map SignaturePubkeyPair.publicKey = signedKeysOf tx.compiledMessage) :
    tx._compile = (tx.compiledMessage, tx) := by
  have hc := (zipAll_equals_iff (signedKeysOf tx.compiledMessage) tx.signatures).mpr h
  simp only [Transaction._compile]
  rw [if_pos hc]

theorem compile_reset {tx : Transaction}
    (h : tx.signatures.map SignaturePubkeyPair.publicKey ≠ signedKeysOf tx.compiledMessage) :
    tx._compile = (tx.compiledMessage,
      { tx with signatures := ((signedKeysOf tx.compiledMessage).map
          (fun publicKey => { signature := none, publicKey := publicKey })) }) := by
  have hc := h ∘ (zipAll_equals_iff (signedKeysOf tx.compiledMessage) tx.signatures).mp
  simp only [Transaction._compile]
  rw [if_neg hc]

theorem compile_fst (tx : Transaction) : (tx._compile).1 = tx.compiledMessage := by
  by_cases h : tx.signatures.map SignaturePubkeyPair.publicKey = signedKeysOf tx.compiledMessage
  · rw [compile_reuse h]
  · rw [compile_reset h]

theorem compile_message (tx : Transaction) :
    (tx._compile).2.compiledMessage = tx.compiledMessage := by
  by_cases h : tx.signatures.map SignaturePubkeyPair.publicKey = signedKeysOf tx.compiledMessage
  · rw [compile_reuse h]
  · rw [compile_reset h]

theorem compile_keys (tx : Transaction) :
    (tx._compile).2.signatures.map SignaturePubkeyPair.publicKey
      = signedKeysOf tx.compiledMessage := by
  by_cases h : tx.signatures.map SignaturePubkeyPair.publicKey = signedKeysOf tx.compiledMessage
  · rw [compile_reuse h]; exact h
  · rw [compile_reset h]
    simp [List.map_map, Function.comp_def]

/-- C2: calling the legacy sign operation with zero identities fails with
`NoSigners` ("No signers") and returns the transaction untouched — no message
compilation, no slot reset, no signature written. -/
theorem partial_sign_no_signers (tx : Transaction) :
    tx.partial_sign_with_identity [] = (tx, some SignError.noSigners)
    ∧ SignError.noSigners.message = "No signers" := by
  exact ⟨rfl, rfl⟩

/-- C3: signing a versioned transaction with an identity whose derived public
key is not among the first `numRequiredSignatures` static account keys fails
with the spec's `UnknownSigner` error kind and leaves the transaction — its
signature array included — unmodified. -/
theorem versioned_sign_unknown_signer (tx : VersionedTransaction)
    (identity : Ed25519KeyIdentity)
    (h : identityPubkey identity ∉
      tx.message.staticAccountKeys.take tx.message.header.numRequiredSignatures) :
    tx.sign_with_identity [identity]
      = (tx, some (SignError.nonSignerKey (identityPubkey identity)))
    ∧ (SignError.nonSignerKey (identityPubkey identity)).isUnknownSigner = true := by
  have hfind := (findSignerIdx_eq_none_iff (identityPubkey identity)
    (tx.message.staticAccountKeys.take tx.message.header.numRequiredSignatures)).mpr h
  constructor
  · simp [VersionedTransaction.sign_with_identity, versionedSignLoop, hfind]
  · rfl

/-- C4: `_compile` returns the compiled message; when the transaction's slot
list declares exactly the message's required-signer keys in message order
(one slot per key, each declared key equal to the corresponding key) the
existing slots are kept unchanged, signatures included; otherwise the slot
list is replaced by exactly the required-signer keys in message order with
every signature cleared to null. -/
theorem compile_reuses_or_resets_slots (tx : Transaction) :
    (tx._compile).1 = tx.compiledMessage
    ∧ (tx.signatures.map SignaturePubkeyPair.publicKey = signedKeysOf tx.compiledMessage →
        (tx._compile).2 = tx)
    ∧ (tx.signatures.map SignaturePubkeyPair.publicKey ≠ signedKeysOf tx.compiledMessage →
        (tx._compile).2 = { tx with signatures := ((signedKeysOf tx.compiledMessage).map
          (fun publicKey => { signature := none, publicKey := publicKey })) }) := by
  refine ⟨compile_fst tx, fun h => ?_, fun h => ?_⟩
  · rw [compile_reuse h]
  · rw [compile_reset h]

/-- C8: `disconnect()` always succeeds — it returns `ok`, never an error —
emitting exactly one `disconnect` event, and the adapter state it leaves
behind is the very state it was called on: the held identity is not
cleared. -/
theorem disconnect_always_succeeds (a : IIWalletAdapter) :
    a.disconnect = .ok (a, [AdapterEvent.disconnected]) := by
  rfl

theorem processIdentities_preserves (signData : List Nat) :
    ∀ (ids : List Ed25519KeyIdentity) (tx : Transaction),
    (processIdentities signData tx ids).1.compiledMessage = tx.compiledMessage
    ∧ (processIdentities signData tx ids).1.signatures.map SignaturePubkeyPair.publicKey
        = tx.signatures.map SignaturePubkeyPair.publicKey := by
  intro ids
  induction ids with
  | nil => intro tx; exact ⟨rfl, rfl⟩
  | cons identity rest ih =>
    intro tx
    cases hstep : tx._addSignature (identityPubkey identity) (identity.sign signData) with
    | error e => simp [processIdentities, hstep]
    | ok tx2 =>
      have hc := addSignature_ok_cases hstep
      have hr := ih tx2
      simp only [processIdentities, hstep]
      exact ⟨hr.1.trans hc.2.1, hr.2.trans hc.2.2⟩

theorem processIdentities_frame (signData : List Nat) (other : PublicKey) :
    ∀ (ids : List Ed25519KeyIdentity) (tx : Transaction),
    (∀ id ∈ ids, identityPubkey id ≠ other) →
    slotOf (processIdentities signData tx ids).1 other = slotOf tx other := by
  intro ids
  induction ids with
  | nil => intro tx _; rfl
  | cons identity rest ih =>
    intro tx hne
    cases hstep : tx._addSignature (identityPubkey identity) (identity.sign signData) with
    | error e => simp [processIdentities, hstep]
    | ok tx2 =>
      simp only [processIdentities, hstep]
      have h1 := slotOf_addSignature_other hstep
        (Ne.symm (hne identity (List.mem_cons_self _ _)))
      rw [ih tx2 (fun id hid => hne id (List.mem_cons_of_mem _ hid)), h1]

theorem processIdentities_ok (signData : List Nat) :
    ∀ (ids : List Ed25519KeyIdentity) (tx : Transaction),
    (∀ id ∈ ids, (Ed25519KeyIdentity.sign id signData).length = 64) →
    (∀ id ∈ ids, identityPubkey id ∈ tx.signatures.map SignaturePubkeyPair.publicKey) →
    (ids.map identityPubkey).Nodup →
    (processIdentities signData tx ids).2 = none
    ∧ ∀ id ∈ ids, ∃ q,
        slotOf (processIdentities signData tx ids).1 (identityPubkey id) = some q
        ∧ q.signature = some (Ed25519KeyIdentity.sign id signData)
        ∧ q.publicKey = identityPubkey id := by
  intro ids
  induction ids with
  | nil => intro tx _ _ _; exact ⟨rfl, by simp⟩
  | cons identity rest ih =>
    intro tx h64 hmem hnodup
    obtain ⟨tx2, hstep⟩ := addSignature_ok_of_mem
      (h64 identity (List.mem_cons_self _ _)) (hmem identity (List.mem_cons_self _ _))
    have hkeys := (addSignature_ok_cases hstep).2.2
    have hmem2 : ∀ id ∈ rest,
        identityPubkey id ∈ tx2.signatures.map SignaturePubkeyPair.publicKey := by
      intro id hid
      rw [hkeys]
      exact hmem id (List.mem_cons_of_mem _ hid)
    have hnodup2 : (rest.map identityPubkey).Nodup := (List.nodup_cons.mp hnodup).2
    have hnotmem : identityPubkey identity ∉ rest.map identityPubkey :=
      (List.nodup_cons.mp hnodup).1
    have h642 : ∀ id ∈ rest, (Ed25519KeyIdentity.sign id signData).length = 64 :=
      fun id hid => h64 id (List.mem_cons_of_mem _ hid)
    have ihr := ih tx2 h642 hmem2 hnodup2
    constructor
    · simp only [processIdentities, hstep]
      exact ihr.1
    · intro id hid
      rcases List.mem_cons.mp hid with rfl | hid2
      · obtain ⟨q, hq, hsig, hpk⟩ := slotOf_addSignature_self hstep
        have hfr : ∀ id2 ∈ rest, identityPubkey id2 ≠ identityPubkey id := by
          intro id2 hid2 he
          exact hnotmem (he ▸ List.mem_map_of_mem identityPubkey hid2)
        simp only [processIdentities, hstep]
        rw [processIdentities_frame signData (identityPubkey id) rest tx2 hfr, hq]
        exact ⟨q, rfl, hsig, hpk⟩
      · simp only [processIdentities, hstep]
        exact ihr.2 id hid2

/-- C1: evaluation at the failing input.  Legacy-signing the fresh two-signer
transaction `exTx` with identities `[exIdC, exIdA]` — where `exIdC`'s derived
public key matches no slot — does NOT fail: under the source's actual
semantics (`partial_sign_forEach`) the `UnknownSigner` error, which does
carry the message "unknown signer: pubkey", is thrown only into a discarded
promise (an unhandled rejection no caller sees), the operation's own promise
resolves with no error, and the later identity `exIdA` still signs its
slot. -/
theorem legacy_sign_forEach_swallows_unknown_signer :
    partial_sign_forEach exTx [exIdC, exIdA]
      = (({ signatures :=
              [{ signature := some (List.replicate 64 7), publicKey := exPkA },
               { signature := none, publicKey := exPkB }],
            compiledMessage := exMsg },
          [SignError.unknownSigner (identityPubkey exIdC)]), none)
    ∧ (SignError.unknownSigner (identityPubkey exIdC)).message
        = "unknown signer: " ++ (identityPubkey exIdC).toString :=
  ⟨by decide, rfl⟩

theorem versioned_sign_unknown_signer_witness :
    exVTx.sign_with_identity [exIdC]
      = (exVTx, some (SignError.nonSignerKey (identityPubkey exIdC))) :=
  (versioned_sign_unknown_signer exVTx exIdC (by decide)).1

theorem compile_reuses_or_resets_slots_witness :
    (exTx._compile).2 = exTx
    ∧ (exTx0._compile).2 = { exTx0 with
        signatures := ((signedKeysOf exTx0.compiledMessage).map
          (fun publicKey => { signature := none, publicKey := publicKey })) } := by
  constructor
  · exact (compile_reuses_or_resets_slots exTx).2.1 (by decide)
  · exact (compile_reuses_or_resets_slots exTx0).2.2 (by decide)

theorem sig64_addSignature {tx tx' : Transaction} {pubkey : PublicKey}
    {signature : List Nat} (h : tx._addSignature pubkey signature = .ok tx')
    (hinv : Sig64Inv tx) : Sig64Inv tx' := by
  have h64 := (addSignature_ok_cases h).1
  cases hfind : findSlotIdx pubkey tx.signatures with
  | none =>
    rw [addSignature_err_unknown h64 ((findSlotIdx_eq_none_iff _ _).mp hfind)] at h
    exact absurd h (by simp)
  | some i =>
    simp [Transaction._addSignature, h64, hfind] at h
    subst h
    intro pair hp s hs
    rcases mem_setSlot signature tx.signatures i pair hp with h2 | h2
    · exact hinv pair h2 s hs
    · rw [h2] at hs
      have h3 := Option.some.inj hs
      rw [← h3]
      exact h64

theorem sig64_processIdentities (signData : List Nat) :
    ∀ (ids : List Ed25519KeyIdentity) (tx : Transaction), Sig64Inv tx →
    Sig64Inv (processIdentities signData tx ids).1 := by
  intro ids
  induction ids with
  | nil => intro tx h; exact h
  | cons identity rest ih =>
    intro tx h
    cases hstep : tx._addSignature (identityPubkey identity) (identity.sign signData) with
    | error e => simpa [processIdentities, hstep] using h
    | ok tx2 =>
      simp only [processIdentities, hstep]
      exact ih tx2 (sig64_addSignature hstep h)

theorem sig64_compile (tx : Transaction) (h : Sig64Inv tx) : Sig64Inv (tx._compile).2 := by
  by_cases hc : tx.signatures.map SignaturePubkeyPair.publicKey = signedKeysOf tx.compiledMessage
  · rw [compile_reuse hc]; exact h
  · rw [compile_reset hc]
    intro pair hp s hs
    simp only [List.mem_map] at hp
    rcases hp with ⟨pk, _, rfl⟩
    simp at hs

theorem sig64_partial_sign (tx : Transaction) (ids : List Ed25519KeyIdentity)
    (h : Sig64Inv tx) : Sig64Inv (tx.partial_sign_with_identity ids).1 := by
  unfold Transaction.partial_sign_with_identity
  by_cases hlen : ids.length = 0
  · simpa [hlen] using h
  · simp only [if_neg hlen]
    exact sig64_processIdentities ((tx._compile).1.serialize)
      (dedupeIdentities ids) (tx._compile).2 (sig64_compile tx h)

/-- C6: a produced signature whose length is not exactly 64 bytes makes
`_addSignature` fail with `InvalidSignatureLength` ("Assertion failed.")
before the slot assignment; consequently a legacy sign call never writes a
signature of length other than 64 bytes into any slot — the 64-byte slot
invariant is preserved whatever the call's outcome. -/
theorem invalid_signature_length_never_written (tx : Transaction)
    (pubkey : PublicKey) (signature : List Nat)
    (identities : List Ed25519KeyIdentity)
    (hlen : signature.length ≠ 64) (hinv : Sig64Inv tx) :
    tx._addSignature pubkey signature = .error SignError.invalidSignatureLength
    ∧ Sig64Inv (tx.partial_sign_with_identity identities).1 :=
  ⟨addSignature_err_length hlen, sig64_partial_sign tx identities hinv⟩

theorem invalid_signature_length_never_written_witness :
    exTx0._addSignature exPkA [1, 2, 3] = .error SignError.invalidSignatureLength
    ∧ Sig64Inv (exTx0.partial_sign_with_identity [exIdA]).1 :=
  invalid_signature_length_never_written exTx0 exPkA [1, 2, 3] [exIdA]
    (by decide) (by intro pair hp s hs; simp [exTx0] at hp)

theorem partial_sign_message (tx : Transaction) (ids : List Ed25519KeyIdentity) :
    (tx.partial_sign_with_identity ids).1.compiledMessage = tx.compiledMessage := by
  unfold Transaction.partial_sign_with_identity
  by_cases hlen : ids.length = 0
  · simp [hlen]
  · simp only [if_neg hlen]
    exact ((processIdentities_preserves ((tx._compile).1.serialize)
      (dedupeIdentities ids) (tx._compile).2).1).trans (compile_message tx)

theorem versionedLoop_message (signerPubkeys : List PublicKey) (messageData : List Nat) :
    ∀ (ids : List Ed25519KeyIdentity) (tx : VersionedTransaction),
    (versionedSignLoop signerPubkeys messageData tx ids).1.message = tx.message := by
  intro ids
  induction ids with
  | nil => intro tx; rfl
  | cons identity rest ih =>
    intro tx
    cases hfind : findSignerIdx (identityPubkey identity) signerPubkeys with
    | none => simp [versionedSignLoop, hfind]
    | some i =>
      simp only [versionedSignLoop, hfind]
      exact ih _

theorem sign_with_identity_message (tx : VersionedTransaction)
    (ids : List Ed25519KeyIdentity) :
    (tx.sign_with_identity ids).1.message = tx.message :=
  versionedLoop_message _ _ ids tx

/-- C7: `signTransaction` demands a held identity, failing with
`NotConnected` when none is present and leaving the transaction untouched;
otherwise it returns the received transaction in its own format with only the
signature slots possibly modified — the legacy transaction's compiled message
and the versioned transaction's message are exactly those it was called
with — and the adapter state is returned unchanged by every call. -/
theorem signTransaction_frame (a : IIWalletAdapter) (u : Tx)
    (t : Transaction) (v : VersionedTransaction) :
    (a.identity = none → a.signTransaction u = (a, u, some SignError.notConnected))
    ∧ (a.signTransaction u).1 = a
    ∧ (∃ t', (a.signTransaction (Tx.legacy t)).2.1 = Tx.legacy t'
        ∧ t'.compiledMessage = t.compiledMessage)
    ∧ (∃ v', (a.signTransaction (Tx.versioned v)).2.1 = Tx.versioned v'
        ∧ v'.message = v.message) := by
  refine ⟨fun h => ?_, ?_, ?_, ?_⟩
  · simp [IIWalletAdapter.signTransaction, h]
  · cases ha : a.identity <;> cases u <;> simp [IIWalletAdapter.signTransaction, ha]
  · cases ha : a.identity with
    | none => exact ⟨t, by simp [IIWalletAdapter.signTransaction, ha], rfl⟩
    | some identity =>
      refine ⟨(t.partial_sign_with_identity [identity]).1, ?_,
        partial_sign_message t [identity]⟩
      simp [IIWalletAdapter.signTransaction, ha]
  · cases ha : a.identity with
    | none => exact ⟨v, by simp [IIWalletAdapter.signTransaction, ha], rfl⟩
    | some identity =>
      refine ⟨(v.sign_with_identity [identity]).1, ?_,
        sign_with_identity_message v [identity]⟩
      simp [IIWalletAdapter.signTransaction, ha]

theorem signTransaction_frame_witness :
    exAdapterNone.signTransaction (Tx.legacy exTx)
      = (exAdapterNone, Tx.legacy exTx, some SignError.notConnected)
    ∧ (exAdapterA.signTransaction (Tx.legacy exTx)).1 = exAdapterA := by
  constructor
  · exact (signTransaction_frame exAdapterNone (Tx.legacy exTx) exTx exVTx).1 rfl
  · exact (signTransaction_frame exAdapterA (Tx.legacy exTx) exTx exVTx).2.1

theorem addSignature_error_cases {tx : Transaction} {pk : PublicKey} {s : List Nat}
    {e : SignError} (h : tx._addSignature pk s = .error e) :
    e = SignError.invalidSignatureLength ∨ e = SignError.unknownSigner pk := by
  by_cases hl : s.length ≠ 64
  · rw [addSignature_err_length hl] at h
    simp at h
    exact Or.inl h.symm
  · push_neg at hl
    cases hfind : findSlotIdx pk tx.signatures with
    | none =>
      rw [addSignature_err_unknown hl ((findSlotIdx_eq_none_iff _ _).mp hfind)] at h
      simp at h
      exact Or.inr h.symm
    | some i => simp [Transaction._addSignature, hl, hfind] at h

theorem processIdentities_ne_notConnected (signData : List Nat) :
    ∀ (ids : List Ed25519KeyIdentity) (tx : Transaction),
    (processIdentities signData tx ids).2 ≠ some SignError.notConnected := by
  intro ids
  induction ids with
  | nil => intro tx h; simp [processIdentities] at h
  | cons identity rest ih =>
    intro tx
    cases hstep : tx._addSignature (identityPubkey identity) (identity.sign signData) with
    | error e =>
      have hc := addSignature_error_cases hstep
      simp only [processIdentities, hstep]
      rcases hc with rfl | rfl <;> simp
    | ok tx2 =>
      simp only [processIdentities, hstep]
      exact ih tx2

theorem partial_sign_ne_notConnected (tx : Transaction) (ids : List Ed25519KeyIdentity) :
    (tx.partial_sign_with_identity ids).2 ≠ some SignError.notConnected := by
  unfold Transaction.partial_sign_with_identity
  by_cases hlen : ids.length = 0
  · simp [hlen]
  · simp only [if_neg hlen]
    exact processIdentities_ne_notConnected ((tx._compile).1.serialize)
      (dedupeIdentities ids) (tx._compile).2

theorem versionedLoop_ne_notConnected (signerPubkeys : List PublicKey)
    (messageData : List Nat) :
    ∀ (ids : List Ed25519KeyIdentity) (tx : VersionedTransaction),
    (versionedSignLoop signerPubkeys messageData tx ids).2
      ≠ some SignError.notConnected := by
  intro ids
  induction ids with
  | nil => intro tx h; simp [versionedSignLoop] at h
  | cons identity rest ih =>
    intro tx
    cases hfind : findSignerIdx (identityPubkey identity) signerPubkeys with
    | none => simp [versionedSignLoop, hfind]
    | some i =>
      simp only [versionedSignLoop, hfind]
      exact ih _

theorem sign_with_identity_ne_notConnected (tx : VersionedTransaction)
    (ids : List Ed25519KeyIdentity) :
    (tx.sign_with_identity ids).2 ≠ some SignError.notConnected :=
  versionedLoop_ne_notConnected _ _ ids tx

/-- C10: an adapter created through the public constructor holds a non-null
identity, and no operation clears it: `connect` succeeds (its `NotConnected`
branch is unreachable) emitting the derived public key, `disconnect` returns
the same state, `signTransaction` leaves the identity in place and can never
fail with `NotConnected`, and `publicKey` is never null. -/
theorem constructed_adapter_never_disconnected (identity : Ed25519KeyIdentity) (u : Tx) :
    (IIWalletAdapter.construct identity).identity = some identity
    ∧ (IIWalletAdapter.construct identity).publicKey = some (identityPubkey identity)
    ∧ (IIWalletAdapter.construct identity).connect
        = .ok (IIWalletAdapter.construct identity,
            [AdapterEvent.connected (identityPubkey identity)])
    ∧ (IIWalletAdapter.construct identity).disconnect
        = .ok (IIWalletAdapter.construct identity, [AdapterEvent.disconnected])
    ∧ ((IIWalletAdapter.construct identity).signTransaction u).1.identity = some identity
    ∧ ((IIWalletAdapter.construct identity).signTransaction u).2.2
        ≠ some SignError.notConnected := by
  refine ⟨rfl, rfl, rfl, rfl, ?_, ?_⟩
  · cases u <;> rfl
  · cases u with
    | legacy t =>
      show (t.partial_sign_with_identity [identity]).2 ≠ some SignError.notConnected
      exact partial_sign_ne_notConnected t [identity]
    | versioned v =>
      show (v.sign_with_identity [identity]).2 ≠ some SignError.notConnected
      exact sign_with_identity_ne_notConnected v [identity]

theorem constructed_adapter_never_disconnected_witness :
    ((IIWalletAdapter.construct exIdA).signTransaction (Tx.legacy exTx)).2.2
      ≠ some SignError.notConnected :=
  (constructed_adapter_never_disconnected exIdA (Tx.legacy exTx)).2.2.2.2.2

theorem PublicKey.equals_self (a : PublicKey) : a.equals a = true :=
  (PublicKey.equals_iff a a).mpr rfl

theorem PublicKey.equals_false_of_ne {a b : PublicKey} (h : a ≠ b) : a.equals b = false := by
  cases hb : a.equals b with
  | false => rfl
  | true => exact absurd ((PublicKey.equals_iff _ _).mp hb) h

theorem dedupeLoop_spec :
    ∀ (ids : List Ed25519KeyIdentity) (seen : List String),
    ((dedupeLoop seen ids).map (fun id => (identityPubkey id).toString)).Nodup
    ∧ ∀ id ∈ dedupeLoop seen ids, (identityPubkey id).toString ∉ seen := by
  intro ids
  induction ids with
  | nil =>
    intro seen
    exact ⟨List.nodup_nil, by simp [dedupeLoop]⟩
  | cons identity rest ih =>
    intro seen
    by_cases h : seen.contains ((identityPubkey identity).toString) = true
    · simp only [dedupeLoop, if_pos h]
      exact ih seen
    · simp only [dedupeLoop, if_neg h]
      have hkept := ih ((identityPubkey identity).toString :: seen)
      constructor
      · rw [List.map_cons, List.nodup_cons]
        refine ⟨?_, hkept.1⟩
        intro hmem
        rcases List.mem_map.mp hmem with ⟨id2, hid2, heq⟩
        exact hkept.2 id2 hid2 (heq ▸ List.mem_cons_self _ _)
      · intro id hid
        rcases List.mem_cons.mp hid with rfl | h2
        · exact fun hm => h (List.elem_iff.mpr hm)
        · exact fun hm => hkept.2 id h2 (List.mem_cons_of_mem _ hm)

theorem dedupeIdentities_keyStrings_nodup (ids : List Ed25519KeyIdentity) :
    ((dedupeIdentities ids).map (fun id => (identityPubkey id).toString)).Nodup :=
  (dedupeLoop_spec ids []).1

theorem keyStrings_nodup {ids : List Ed25519KeyIdentity}
    (h : (ids.map identityPubkey).Nodup) :
    (ids.map (fun id => (identityPubkey id).toString)).Nodup := by
  have h2 : ids.map (fun id => (identityPubkey id).toString)
      = (ids.map identityPubkey).map PublicKey.toString := by
    rw [List.map_map]
    rfl
  rw [h2]
  exact h.map (fun _ _ hab => PublicKey.toString_inj hab)

theorem dedupeLoop_eq_self :
    ∀ (ids : List Ed25519KeyIdentity) (seen : List String),
    (ids.map (fun id => (identityPubkey id).toString)).Nodup →
    (∀ id ∈ ids, (identityPubkey id).toString ∉ seen) →
    dedupeLoop seen ids = ids := by
  intro ids
  induction ids with
  | nil => intro seen _ _; rfl
  | cons identity rest ih =>
    intro seen hnodup hseen
    have hkey : ¬ seen.contains ((identityPubkey identity).toString) = true := by
      intro hc
      exact hseen identity (List.mem_cons_self _ _) (List.elem_iff.mp hc)
    simp only [dedupeLoop, if_neg hkey]
    congr 1
    apply ih
    · exact (List.nodup_cons.mp (by simpa using hnodup)).2
    · intro id hid hmem
      rcases List.mem_cons.mp hmem with heq | h2
      · exact (List.nodup_cons.mp (by simpa using hnodup)).1
          (heq ▸ List.mem_map_of_mem (fun id => (identityPubkey id).toString) hid)
      · exact hseen id (List.mem_cons_of_mem _ hid) h2

theorem dedupeIdentities_eq_self {ids : List Ed25519KeyIdentity}
    (h : (ids.map identityPubkey).Nodup) :
    dedupeIdentities ids = ids :=
  dedupeLoop_eq_self ids [] (keyStrings_nodup h) (by simp)

theorem dedupe_pair (identity : Ed25519KeyIdentity) :
    dedupeIdentities [identity, identity] = [identity] := by
  simp [dedupeIdentities, dedupeLoop]

theorem dedupe_single (identity : Ed25519KeyIdentity) :
    dedupeIdentities [identity] = [identity] := by
  simp [dedupeIdentities, dedupeLoop]

theorem partial_sign_nonempty (tx : Transaction) (ids : List Ed25519KeyIdentity)
    (h : ¬ ids.length = 0) :
    tx.partial_sign_with_identity ids
      = (tx._compile).2._partialSignWithIdentity (tx._compile).1 (dedupeIdentities ids) := by
  simp only [Transaction.partial_sign_with_identity, if_neg h]

theorem partial_sign_dup (tx : Transaction) (identity : Ed25519KeyIdentity) :
    tx.partial_sign_with_identity [identity, identity]
      = tx.partial_sign_with_identity [identity] := by
  rw [partial_sign_nonempty tx [identity, identity] (by simp),
    partial_sign_nonempty tx [identity] (by simp), dedupe_pair, dedupe_single]

theorem map_write_not_mem {pk : PublicKey} {s : List Nat} :
    ∀ (l : List SignaturePubkeyPair),
    pk ∉ l.map SignaturePubkeyPair.publicKey →
    l.map (fun pair => if pk.equals pair.publicKey then
      { pair with signature := some s } else pair) = l := by
  intro l
  induction l with
  | nil => intro _; rfl
  | cons pair rest ih =>
    intro h
    rw [List.map_cons]
    have hne : pk ≠ pair.publicKey := by
      intro he
      exact h (by rw [List.map_cons, he]; exact List.mem_cons_self _ _)
    rw [if_neg (fun hb => hne ((PublicKey.equals_iff _ _).mp hb))]
    rw [ih (fun hm => h (by rw [List.map_cons]; exact List.mem_cons_of_mem _ hm))]

theorem setSlot_eq_map (pk : PublicKey) (s : List Nat) :
    ∀ (l : List SignaturePubkeyPair) (i : Nat),
    findSlotIdx pk l = some i →
    (l.map SignaturePubkeyPair.publicKey).Nodup →
    setSlotSignature l i s
      = l.map (fun pair => if pk.equals pair.publicKey then
          { pair with signature := some s } else pair) := by
  intro l
  induction l with
  | nil => intro i h _; simp [findSlotIdx] at h
  | cons pair rest ih =>
    intro i h hnodup
    by_cases hh : pk.equals pair.publicKey = true
    · have hi : i = 0 := by simp [findSlotIdx, hh] at h; omega
      subst hi
      simp only [setSlotSignature, List.map_cons, if_pos hh]
      congr 1
      have hpk : pk = pair.publicKey := (PublicKey.equals_iff _ _).mp hh
      have hnot : pk ∉ rest.map SignaturePubkeyPair.publicKey := by
        rw [hpk]
        exact (List.nodup_cons.mp (by simpa using hnodup)).1
      exact (map_write_not_mem rest hnot).symm
    · rw [findSlotIdx, if_neg hh] at h
      rcases Option.map_eq_some'.mp h with ⟨j, hj, rfl⟩
      simp only [setSlotSignature, List.map_cons, if_neg hh]
      congr 1
      exact ih j hj (List.nodup_cons.mp (by simpa using hnodup)).2

theorem addSignature_eq_map {tx : Transaction} {pk : PublicKey} {s : List Nat}
    (h64 : s.length = 64)
    (hmem : pk ∈ tx.signatures.map SignaturePubkeyPair.publicKey)
    (hnodup : (tx.signatures.map SignaturePubkeyPair.publicKey).Nodup) :
    tx._addSignature pk s = .ok { tx with
      signatures := (tx.signatures.map (fun pair =>
        if pk.equals pair.publicKey then { pair with signature := some s } else pair)) } := by
  have hsome := (findSlotIdx_isSome_iff pk tx.signatures).mpr hmem
  rcases Option.isSome_iff_exists.mp hsome with ⟨i, hi⟩
  simp [Transaction._addSignature, h64, hi, setSlot_eq_map pk s tx.signatures i hi hnodup]

theorem processIdentities_map (signData : List Nat) :
    ∀ (ids : List Ed25519KeyIdentity) (tx : Transaction),
    (∀ id ∈ ids, (Ed25519KeyIdentity.sign id signData).length = 64) →
    (∀ id ∈ ids, identityPubkey id ∈ tx.signatures.map SignaturePubkeyPair.publicKey) →
    (ids.map identityPubkey).Nodup →
    (tx.signatures.map SignaturePubkeyPair.publicKey).Nodup →
    (processIdentities signData tx ids).1.signatures
      = tx.signatures.map (fun pair =>
          match ids.find? (fun id => (identityPubkey id).equals pair.publicKey) with
          | some id => { pair with signature := some (Ed25519KeyIdentity.sign id signData) }
          | none => pair) := by
  intro ids
  induction ids with
  | nil =>
    intro tx _ _ _ _
    simp [processIdentities, List.find?]
  | cons identity rest ih =>
    intro tx h64 hmem hnodup hknodup
    have hstep := addSignature_eq_map
      (h64 identity (List.mem_cons_self _ _)) (hmem identity (List.mem_cons_self _ _)) hknodup
    have hkeys := (addSignature_ok_cases hstep).2.2
    simp only [processIdentities, hstep]
    rw [ih _ (fun id hid => h64 id (List.mem_cons_of_mem _ hid))
      (fun id hid => by rw [hkeys]; exact hmem id (List.mem_cons_of_mem _ hid))
      (List.nodup_cons.mp hnodup).2 (by rw [hkeys]; exact hknodup)]
    show (tx.signatures.map _).map _ = _
    rw [List.map_map]
    apply List.map_congr_left
    intro pair _
    by_cases hh : (identityPubkey identity).equals pair.publicKey = true
    · have hrest : rest.find? (fun id => (identityPubkey id).equals pair.publicKey) = none := by
        rw [List.find?_eq_none]
        intro id2 hid2 hb
        have h1 : identityPubkey id2 = pair.publicKey := (PublicKey.equals_iff _ _).mp hb
        have h2 : identityPubkey identity = pair.publicKey := (PublicKey.equals_iff _ _).mp hh
        exact (List.nodup_cons.mp hnodup).1
          ((h1.trans h2.symm) ▸ List.mem_map_of_mem identityPubkey hid2)
      have hfc : List.find? (fun id => (identityPubkey id).equals pair.publicKey)
          (identity :: rest) = some identity := by
        simp [List.find?, hh]
      simp only [Function.comp_apply, if_pos hh, hrest, hfc]
    · have hfc : List.find? (fun id => (identityPubkey id).equals pair.publicKey)
          (identity :: rest)
          = List.find? (fun id => (identityPubkey id).equals pair.publicKey) rest := by
        simp [List.find?, hh]
      simp only [Function.comp_apply, if_neg hh, hfc]

theorem all_none_eq_map :
    ∀ (l : List SignaturePubkeyPair), (∀ pair ∈ l, pair.signature = none) →
    l = (l.map SignaturePubkeyPair.publicKey).map
        (fun publicKey => { signature := none, publicKey := publicKey }) := by
  intro l
  induction l with
  | nil => intro _; rfl
  | cons pair rest ih =>
    intro h
    simp only [List.map_cons]
    have hsig := h pair (List.mem_cons_self _ _)
    have hpair : pair = { signature := none, publicKey := pair.publicKey } := by
      cases pair
      simp at hsig
      rw [hsig]
    rw [← hpair, ← ih (fun p hp => h p (List.mem_cons_of_mem _ hp))]

theorem compile_fresh {tx : Transaction}
    (hfresh : ∀ pair ∈ tx.signatures, pair.signature = none) :
    (tx._compile).2.signatures
      = (signedKeysOf tx.compiledMessage).map
          (fun publicKey => { signature := none, publicKey := publicKey }) := by
  by_cases hc : tx.signatures.map SignaturePubkeyPair.publicKey = signedKeysOf tx.compiledMessage
  · rw [compile_reuse hc, ← hc]
    exact all_none_eq_map tx.signatures hfresh
  · rw [compile_reset hc]

theorem partial_sign_keys (tx : Transaction) (ids : List Ed25519KeyIdentity)
    (hne : ¬ ids.length = 0) :
    (tx.partial_sign_with_identity ids).1.signatures.map SignaturePubkeyPair.publicKey
      = signedKeysOf tx.compiledMessage := by
  rw [partial_sign_nonempty tx ids hne]
  exact ((processIdentities_preserves _ _ _).2).trans (compile_keys tx)

theorem countP_mem_eq_length {l ks : List PublicKey} (hl : l.Nodup) (hks : ks.Nodup)
    (hsub : ∀ k ∈ ks, k ∈ l) :
    l.countP (fun pk => decide (pk ∈ ks)) = ks.length := by
  rw [List.countP_eq_length_filter]
  have hperm : List.Perm (l.filter (fun pk => decide (pk ∈ ks))) ks := by
    apply (List.perm_ext_iff_of_nodup (hl.filter _) hks).mpr
    intro a
    simp only [List.mem_filter, decide_eq_true_eq]
    exact ⟨fun h => h.2, fun h => ⟨hsub a h, h⟩⟩
  exact hperm.length_eq

/-- C5: legacy signing deduplicates identities by public-key string — the
deduplicated list's key strings are pairwise distinct, so each distinct
signer signs at most once — and a list holding the same identity twice signs
exactly as that identity once does; moreover, signing a fresh transaction
with a non-empty list of N distinct identities that are all required signers
succeeds, leaves the slot list equal to the required-signer keys in message
order, marks a slot signed exactly when its key is one of the identities'
derived keys, and so fills exactly N slots. -/
theorem legacy_sign_dedup_and_fills (tx : Transaction)
    (ids anyIds : List Ed25519KeyIdentity) (identity : Ed25519KeyIdentity)
    (hne : ids ≠ [])
    (hnodup : (ids.map identityPubkey).Nodup)
    (hknodup : (signedKeysOf tx.compiledMessage).Nodup)
    (hvalid : ∀ id ∈ ids, identityPubkey id ∈ signedKeysOf tx.compiledMessage)
    (h64 : ∀ id ∈ ids,
      (Ed25519KeyIdentity.sign id tx.compiledMessage.serialize).length = 64)
    (hfresh : ∀ pair ∈ tx.signatures, pair.signature = none) :
    ((dedupeIdentities anyIds).map (fun id => (identityPubkey id).toString)).Nodup
    ∧ tx.partial_sign_with_identity [identity, identity]
        = tx.partial_sign_with_identity [identity]
    ∧ (tx.partial_sign_with_identity ids).2 = none
    ∧ (tx.partial_sign_with_identity ids).1.signatures.map SignaturePubkeyPair.publicKey
        = signedKeysOf tx.compiledMessage
    ∧ (∀ pair ∈ (tx.partial_sign_with_identity ids).1.signatures,
        pair.signature.isSome = true ↔ pair.publicKey ∈ ids.map identityPubkey)
    ∧ ((tx.partial_sign_with_identity ids).1.signatures.filter
        (fun pair => pair.signature.isSome)).length = ids.length := by
  have hlen : ¬ ids.length = 0 := fun h => hne (List.length_eq_zero.mp h)
  have hded : dedupeIdentities ids = ids := dedupeIdentities_eq_self hnodup
  have hcfresh := compile_fresh hfresh
  have hckeys := compile_keys tx
  have hcfst := compile_fst tx
  have hmem : ∀ id ∈ ids, identityPubkey id ∈
      (tx._compile).2.signatures.map SignaturePubkeyPair.publicKey := by
    intro id hid
    rw [hckeys]
    exact hvalid id hid
  have hknodup2 : ((tx._compile).2.signatures.map SignaturePubkeyPair.publicKey).Nodup := by
    rw [hckeys]
    exact hknodup
  have hcall : tx.partial_sign_with_identity ids
      = processIdentities tx.compiledMessage.serialize (tx._compile).2 ids := by
    rw [partial_sign_nonempty tx ids hlen, hded]
    simp only [Transaction._partialSignWithIdentity, hcfst]
  have hmap := processIdentities_map tx.compiledMessage.serialize ids (tx._compile).2
    h64 hmem hnodup hknodup2
  have hsigs : (tx.partial_sign_with_identity ids).1.signatures
      = (signedKeysOf tx.compiledMessage).map
          ((fun pair : SignaturePubkeyPair =>
            match ids.find? (fun id => (identityPubkey id).equals pair.publicKey) with
            | some id => { pair with
                signature := some (Ed25519KeyIdentity.sign id tx.compiledMessage.serialize) }
            | none => pair)
          ∘ (fun publicKey => { signature := none, publicKey := publicKey })) := by
    rw [hcall, hmap, hcfresh, List.map_map]
  refine ⟨dedupeIdentities_keyStrings_nodup anyIds, partial_sign_dup tx identity, ?_, ?_, ?_, ?_⟩
  · rw [hcall]
    exact (processIdentities_ok tx.compiledMessage.serialize ids (tx._compile).2
      h64 hmem hnodup).1
  · exact partial_sign_keys tx ids hlen
  · intro pair hpair
    rw [hsigs] at hpair
    rcases List.mem_map.mp hpair with ⟨pk, _, rfl⟩
    cases hfind : ids.find? (fun id => (identityPubkey id).equals pk) with
    | some id =>
      have hp := List.find?_some hfind
      have hkey : identityPubkey id = pk := (PublicKey.equals_iff _ _).mp hp
      have hmemid := List.mem_of_find?_eq_some hfind
      have hm : pk ∈ ids.map identityPubkey :=
        hkey ▸ List.mem_map_of_mem identityPubkey hmemid
      simp only [Function.comp_apply, hfind]
      exact ⟨fun _ => hm, fun _ => rfl⟩
    | none =>
      have hnone := List.find?_eq_none.mp hfind
      have hm : pk ∉ ids.map identityPubkey := by
        intro hmm
        rcases List.mem_map.mp hmm with ⟨id, hid, hkeyid⟩
        exact absurd ((PublicKey.equals_iff _ _).mpr hkeyid) (hnone id hid)
      simp only [Function.comp_apply, hfind]
      constructor
      · intro h
        simp at h
      · intro h
        exact absurd h hm
  · rw [hsigs, ← List.countP_eq_length_filter, List.countP_map]
    have hpt : ∀ pk ∈ signedKeysOf tx.compiledMessage,
        ((fun pair : SignaturePubkeyPair => pair.signature.isSome)
          ∘ ((fun pair : SignaturePubkeyPair =>
            match ids.find? (fun id => (identityPubkey id).equals pair.publicKey) with
            | some id => { pair with
                signature := some (Ed25519KeyIdentity.sign id tx.compiledMessage.serialize) }
            | none => pair)
          ∘ (fun publicKey => { signature := none, publicKey := publicKey }))) pk = true
          ↔ decide (pk ∈ ids.map identityPubkey) = true := by
      intro pk _
      cases hfind : ids.find? (fun id => (identityPubkey id).equals pk) with
      | some id =>
        have hp := List.find?_some hfind
        have hkey : identityPubkey id = pk := (PublicKey.equals_iff _ _).mp hp
        have hmemid := List.mem_of_find?_eq_some hfind
        have hm : pk ∈ ids.map identityPubkey :=
          hkey ▸ List.mem_map_of_mem identityPubkey hmemid
        simp [Function.comp_apply, hfind, hm]
      | none =>
        have hnone := List.find?_eq_none.mp hfind
        have hm : pk ∉ ids.map identityPubkey := by
          intro hmm
          rcases List.mem_map.mp hmm with ⟨id, hid, hkeyid⟩
          exact absurd ((PublicKey.equals_iff _ _).mpr hkeyid) (hnone id hid)
        simp [Function.comp_apply, hfind, hm]
    rw [List.countP_congr hpt]
    have hsub : ∀ k ∈ ids.map identityPubkey, k ∈ signedKeysOf tx.compiledMessage := by
      intro k hk
      rcases List.mem_map.mp hk with ⟨id, hid, rfl⟩
      exact hvalid id hid
    rw [countP_mem_eq_length hknodup hnodup hsub, List.length_map]

theorem legacy_sign_dedup_and_fills_witness :
    ((dedupeIdentities [exIdA, exIdA, exIdB]).map
        (fun id => (identityPubkey id).toString)).Nodup
    ∧ exTx.partial_sign_with_identity [exIdA, exIdA]
        = exTx.partial_sign_with_identity [exIdA]
    ∧ (exTx.partial_sign_with_identity [exIdA, exIdB]).2 = none
    ∧ (exTx.partial_sign_with_identity [exIdA, exIdB]).1.signatures.map
        SignaturePubkeyPair.publicKey = signedKeysOf exTx.compiledMessage
    ∧ ((exTx.partial_sign_with_identity [exIdA, exIdB]).1.signatures.filter
        (fun pair => pair.signature.isSome)).length = 2 := by
  have h := legacy_sign_dedup_and_fills exTx [exIdA, exIdB] [exIdA, exIdA, exIdB] exIdA
    (by simp) (by decide) (by decide) (by decide) (by decide) (by decide)
  exact ⟨h.1, h.2.1, h.2.2.1, h.2.2.2.1, h.2.2.2.2.2⟩

theorem compile_idem (u : Transaction) : ((u._compile).2)._compile = u._compile := by
  have hk : (u._compile).2.signatures.map SignaturePubkeyPair.publicKey
      = signedKeysOf ((u._compile).2.compiledMessage) := by
    rw [compile_message]
    exact compile_keys u
  rw [compile_reuse hk, compile_message, ← compile_fst u]

/-- C9: compiling an already-compiled legacy transaction reuses the same
signer slot order (`_compile` is idempotent), and on a fresh legacy
transaction whose required signers are `[A, B]`: signing with the identity
for `A` fills slot `A` and leaves slot `B` unset; a subsequent sign call on
the result with the identity for `B` keeps slot `A`'s signature unchanged
and fills slot `B`. -/
theorem two_signer_flow (tx : Transaction) (idA idB : Ed25519KeyIdentity)
    (rest : List PublicKey)
    (hAB : identityPubkey idA ≠ identityPubkey idB)
    (hacct : tx.compiledMessage.accountKeys
      = identityPubkey idA :: identityPubkey idB :: rest)
    (hnrs : tx.compiledMessage.header.numRequiredSignatures = 2)
    (h64A : (Ed25519KeyIdentity.sign idA tx.compiledMessage.serialize).length = 64)
    (h64B : (Ed25519KeyIdentity.sign idB tx.compiledMessage.serialize).length = 64)
    (hfresh : ∀ pair ∈ tx.signatures, pair.signature = none) :
    (∀ u : Transaction, ((u._compile).2)._compile = u._compile)
    ∧ tx.partial_sign_with_identity [idA]
        = ({ signatures :=
              [{ signature := some (Ed25519KeyIdentity.sign idA tx.compiledMessage.serialize),
                 publicKey := identityPubkey idA },
               { signature := none, publicKey := identityPubkey idB }],
             compiledMessage := tx.compiledMessage }, none)
    ∧ (tx.partial_sign_with_identity [idA]).1.partial_sign_with_identity [idB]
        = ({ signatures :=
              [{ signature := some (Ed25519KeyIdentity.sign idA tx.compiledMessage.serialize),
                 publicKey := identityPubkey idA },
               { signature := some (Ed25519KeyIdentity.sign idB tx.compiledMessage.serialize),
                 publicKey := identityPubkey idB }],
             compiledMessage := tx.compiledMessage }, none) := by
  have hkeys : signedKeysOf tx.compiledMessage
      = [identityPubkey idA, identityPubkey idB] := by
    unfold signedKeysOf
    rw [hacct, hnrs]
    rfl
  have hcomp : (tx._compile).2
      = { signatures := [{ signature := none, publicKey := identityPubkey idA },
                         { signature := none, publicKey := identityPubkey idB }],
          compiledMessage := tx.compiledMessage } := by
    have h1 := compile_fresh hfresh
    rw [hkeys] at h1
    have h2 := compile_message tx
    calc (tx._compile).2
        = ⟨(tx._compile).2.signatures, (tx._compile).2.compiledMessage⟩ := rfl
      _ = _ := by
          rw [h1, h2]
          rfl
  have hstep1 : tx.partial_sign_with_identity [idA]
      = ({ signatures :=
            [{ signature := some (Ed25519KeyIdentity.sign idA tx.compiledMessage.serialize),
               publicKey := identityPubkey idA },
             { signature := none, publicKey := identityPubkey idB }],
           compiledMessage := tx.compiledMessage }, none) := by
    rw [partial_sign_nonempty tx [idA] (by simp), dedupe_single idA]
    simp only [Transaction._partialSignWithIdentity, compile_fst tx, hcomp]
    simp [processIdentities, Transaction._addSignature, h64A, findSlotIdx,
      PublicKey.equals_self, setSlotSignature]
  have hstep2 : Transaction.partial_sign_with_identity
      { signatures :=
          [{ signature := some (Ed25519KeyIdentity.sign idA tx.compiledMessage.serialize),
             publicKey := identityPubkey idA },
           { signature := none, publicKey := identityPubkey idB }],
        compiledMessage := tx.compiledMessage } [idB]
      = ({ signatures :=
            [{ signature := some (Ed25519KeyIdentity.sign idA tx.compiledMessage.serialize),
               publicKey := identityPubkey idA },
             { signature := some (Ed25519KeyIdentity.sign idB tx.compiledMessage.serialize),
               publicKey := identityPubkey idB }],
           compiledMessage := tx.compiledMessage }, none) := by
    rw [partial_sign_nonempty _ [idB] (by simp), dedupe_single idB]
    have hreuse : Transaction._compile
        { signatures :=
            [{ signature := some (Ed25519KeyIdentity.sign idA tx.compiledMessage.serialize),
               publicKey := identityPubkey idA },
             { signature := none, publicKey := identityPubkey idB }],
          compiledMessage := tx.compiledMessage }
        = (tx.compiledMessage,
          { signatures :=
              [{ signature := some (Ed25519KeyIdentity.sign idA tx.compiledMessage.serialize),
                 publicKey := identityPubkey idA },
               { signature := none, publicKey := identityPubkey idB }],
            compiledMessage := tx.compiledMessage }) := by
      apply compile_reuse
      rw [hkeys]
      rfl
    rw [hreuse]
    simp only [Transaction._partialSignWithIdentity]
    simp [processIdentities, Transaction._addSignature, h64B, findSlotIdx,
      PublicKey.equals_self, PublicKey.equals_false_of_ne (Ne.symm hAB), setSlotSignature]
  refine ⟨compile_idem, hstep1, ?_⟩
  rw [hstep1]
  exact hstep2

theorem two_signer_flow_witness :
    exTx.partial_sign_with_identity [exIdA]
      = ({ signatures := [{ signature := some (List.replicate 64 7), publicKey := exPkA },
                          { signature := none, publicKey := exPkB }],
           compiledMessage := exMsg }, none)
    ∧ (exTx.partial_sign_with_identity [exIdA]).1.partial_sign_with_identity [exIdB]
      = ({ signatures := [{ signature := some (List.replicate 64 7), publicKey := exPkA },
                          { signature := some (List.replicate 64 8), publicKey := exPkB }],
           compiledMessage := exMsg }, none) := by
  have h := two_signer_flow exTx exIdA exIdB [{ raw := 3 }]
    (by decide) (by decide) (by decide) (by decide) (by decide) (by decide)
  exact ⟨h.2.1, h.2.2⟩
